import Mathlib

/-!
# Verification of the ragterm dual-granularity RAG pipeline

Shallow embedding of the core of the `ragterm` repository:

* `qdrant_repository.py` — text normalization (`_clean_text`), upload filtering
  (`upload_chunks` / `upload_pages`), the ranked-hit page-deduplication algorithm
  (`get_relevant_documents`), page lookup (`get_chunk_by_page`), and collection
  lifecycle (`delete_collections`).
* `domain.py` — collection naming (`_get_collection_basename` and friends) and the
  delete lifecycle (`delete_rag_file`).
* `ollama_processor.py` / `config.py` — prompt-template substitution
  (`generate_prompt_from_template`) and startup template selection (`initialize_ollama`).

Python strings are modeled as lists of characters (`Str`), machine integers as
`Nat` / `Int`.  The embedding vectors, the similarity search itself, the LLM call
and the physical file system are external collaborators (spec section 1) and are
modeled as opaque data / explicit state where an embedded operation touches them.
-/

namespace Ragterm

/-- Python strings, modeled as lists of unicode code points. -/
abbrev Str := List Char

/-- Characters matched by the regex class `\s` (ASCII whitespace; this is the
subset relevant to the repository's inputs). Also the set stripped by `str.strip()`. -/
def pySpace (c : Char) : Bool :=
  c = ' ' || c = '\t' || c = '\n' || c = '\r' || c = '\x0b' || c = '\x0c'

/-- The sentence punctuation class `[.,!?;:]` used by `_clean_text`. -/
def sentencePunct (c : Char) : Bool :=
  c = '.' || c = ',' || c = '!' || c = '?' || c = ';' || c = ':'

/-- `str.strip()`: drop leading and trailing whitespace. -/
def pyStrip (l : Str) : Str :=
  ((l.dropWhile pySpace).reverse.dropWhile pySpace).reverse

/-- Worker for `collapseRuns`; `inRun` records whether the previous character
belonged to the run currently being replaced. -/
def collapseRunsAux (p : Char → Bool) (r : Char) : Bool → Str → Str
  | _, [] => []
  | inRun, c :: cs =>
    if p c then
      if inRun then collapseRunsAux p r true cs
      else r :: collapseRunsAux p r true cs
    else c :: collapseRunsAux p r false cs

/-- `re.sub(p+, r, text)`: replace every maximal nonempty run of characters
satisfying `p` by the single character `r`.  Used for the `\n+`, `\t+` and `\s+`
substitutions of `_clean_text` (qdrant_repository.py lines 91–93). -/
def collapseRuns (p : Char → Bool) (r : Char) (l : Str) : Str :=
  collapseRunsAux p r false l

/-- `re.sub(r'\s+([.,!?;:])', r'\1', text)` (qdrant_repository.py line 95):
every whitespace run immediately preceding a sentence-punctuation character is
deleted.  Scanning from the right, a whitespace character directly followed by
punctuation (after deletion of the whitespace between them) is dropped. -/
def subSpaceBeforePunct (l : Str) : Str :=
  l.foldr (fun c acc =>
    if pySpace c && acc.head?.any sentencePunct then acc else c :: acc) []

/-- Worker for `subPunctSpace`; the Boolean state records that the tail of a
matched whitespace run is being consumed. -/
def subPunctSpaceAux : Bool → Str → Str
  | _, [] => []
  | skipping, c :: cs =>
    if skipping && pySpace c then subPunctSpaceAux true cs
    else if sentencePunct c then
      match cs with
      | [] => [c]
      | d :: ds =>
        if pySpace d then c :: ' ' :: subPunctSpaceAux true ds
        else c :: subPunctSpaceAux false (d :: ds)
    else c :: subPunctSpaceAux false cs

/-- `re.sub(r'([.,!?;:])\s+', r'\1 ', text)` (qdrant_repository.py line 96):
a punctuation character followed by a whitespace run is rewritten to the
punctuation character followed by exactly one space; scanning resumes after the
consumed run (non-overlapping matches, as with `re.sub`); the worker's Boolean
state records that the tail of a matched whitespace run is being consumed. -/
def subPunctSpace (l : Str) : Str :=
  subPunctSpaceAux false l

/-- Worker for `pySplit`: `cur` holds the (reversed) word being accumulated. -/
def pySplitAux (cur : Str) : Str → List Str
  | [] => if cur.isEmpty then [] else [cur.reverse]
  | c :: cs =>
    if pySpace c then
      if cur.isEmpty then pySplitAux [] cs
      else cur.reverse :: pySplitAux [] cs
    else pySplitAux (c :: cur) cs

/-- Python `str.split()` with no arguments: split on whitespace runs, never
producing empty words. -/
def pySplit (l : Str) : List Str :=
  pySplitAux [] l

/-- The word filter of `_clean_text` (qdrant_repository.py lines 101–111): a
single-character word is kept only when it is in the caller's keep set, a digit,
or sentence punctuation; multi-character words are always kept; all other
single-character words are dropped (both the explicit `continue` branch and the
fall-through of the `if/elif` chain append nothing). -/
def keepWord (singleLetterWords : List Str) (w : Str) : Bool :=
  if w.length = 1 && decide (w ∈ singleLetterWords) then true
  else if w.length = 1 && (w.headD ' ' |>.isDigit) then true
  else if w.length = 1 && sentencePunct (w.headD ' ') then true
  else if 1 < w.length then true
  else false

/-- The cleaning pipeline of `_clean_text` before truncation
(qdrant_repository.py lines 91–113): collapse `\n+`, `\t+`, `\s+` runs to single
spaces, normalize spacing around punctuation, filter words, and re-join with
single spaces. -/
def cleanCore (singleLetterWords : List Str) (text : Str) : Str :=
  let t1 := collapseRuns (fun c => c = '\n') ' ' text
  let t2 := collapseRuns (fun c => c = '\t') ' ' t1
  let t3 := collapseRuns pySpace ' ' t2
  let t4 := subSpaceBeforePunct t3
  let t5 := subPunctSpace t4
  let words := pySplit t5
  let cleanWords := words.filter (keepWord singleLetterWords)
  List.intercalate [' '] cleanWords

/-- `truncated.rfind(a + b)` for a two-character needle: the highest index `i`
with `l[i] = a` and `l[i+1] = b`, or `-1` when there is none (Python `str.rfind`
semantics, qdrant_repository.py lines 118–122). -/
def rfind2 (a b : Char) : Str → Int
  | [] => -1
  | c :: cs =>
    let r := rfind2 a b cs
    if r ≠ -1 then r + 1
    else if c = a ∧ cs.head? = some b then 0
    else -1

def log2Aux : Nat → Nat → Nat
  | 0, _ => 0
  | fuel + 1, n => if 2 ≤ n then log2Aux fuel (n / 2) + 1 else 0

/-- `⌊log₂ n⌋` (0 at 0), written with structural recursion on a fuel bound so
that the kernel can evaluate it; `natLog2_eq` shows it agrees with `Nat.log2`
for every `n < 2 ^ 1100`.  This covers every `max_length` for which Python can
evaluate `max_length * 0.7` at all: `float(max_length)` raises `OverflowError`
from `2 ^ 1024` on, far below `2 ^ 1100 / 6305039478318694`. -/
def natLog2 (n : Nat) : Nat :=
  log2Aux 1100 n

/-- The double-precision product `float(m) * 0.7` computed by Python in
`last_sentence_end > max_length * 0.7` (qdrant_repository.py line 124), made
exact: the numerator of the product over the fixed denominator `2 ^ 53`.
`0.7` is the IEEE-754 double `6305039478318694 / 2 ^ 53`; the exact product
`N / 2 ^ 53` is rounded to the nearest double (ties to even), whose grid
spacing at the product's magnitude is `2 ^ e / 2 ^ 53` with
`e = ⌊log₂ N⌋ - 52`.  For `m ≥ 1` the product is at least `0.69…`, so
`e ≥ 0`; neither subnormals nor overflow can occur for any `max_length` on
which Python's `float(max_length)` is defined at all. -/
def fl07mulNum (m : Nat) : Nat :=
  if m = 0 then 0
  else
    let N := m * 6305039478318694
    let e := natLog2 N - 52
    let Q := N / 2 ^ e
    let R := N % 2 ^ e
    let M := if 2 * R < 2 ^ e then Q
             else if 2 ^ e < 2 * R then Q + 1
             else if Q % 2 = 0 then Q else Q + 1
    M * 2 ^ e

/-- `max(truncated.rfind('. '), truncated.rfind('! '), truncated.rfind('? '))`
(qdrant_repository.py lines 118–122). -/
def lastSentenceEnd (truncated : Str) : Int :=
  max (rfind2 '.' ' ' truncated)
    (max (rfind2 '!' ' ' truncated) (rfind2 '?' ' ' truncated))

/-- The truncation step of `_clean_text` (qdrant_repository.py lines 115–127):
if `max_length` is truthy and the cleaned text is longer, truncate to
`max_length`, look for the last sentence end (`'. '`, `'! '`, `'? '`) in the
truncated text, and either cut just after it and append `".."` or keep the
hard cut and append `"..."`.  The branch condition
`last_sentence_end > max_length * 0.7` is Python's exact int–float comparison,
written here with both sides scaled by the denominator `2 ^ 53` of
`fl07mulNum`. -/
def truncateClean (maxLength : Nat) (cleanText : Str) : Str :=
  if maxLength ≠ 0 ∧ maxLength < cleanText.length then
    let truncated := cleanText.take maxLength
    if (fl07mulNum maxLength : Int) < lastSentenceEnd truncated * 2 ^ 53 then
      truncated.take ((lastSentenceEnd truncated).toNat + 1) ++ ['.', '.']
    else
      truncated ++ ['.', '.', '.']
  else cleanText

/-- `QdrantRepository._clean_text` (qdrant_repository.py lines 82–129): empty
input gives the empty string; otherwise the cleaning pipeline, then truncation,
then a final `strip()`. -/
def clean_text (singleLetterWords : List Str) (maxLength : Nat) (text : Str) : Str :=
  if text.isEmpty then []
  else pyStrip (truncateClean maxLength (cleanCore singleLetterWords text))

/-- A sample single-letter keep set, from `CHUNK_NOT_EXTRACT_SYMBOL`'s default
`"a,o,i"` in config.py; the claims quantify over the keep set, this is only used
to evaluate concrete inputs. -/
def sampleKeepSet : List Str := [['a'], ['o'], ['i']]

/-- The two-character needle `[a, b]` occurs in `l` at index `i`. -/
def pairAt (a b : Char) (l : Str) (i : Nat) : Prop :=
  l.get? i = some a ∧ l.get? (i + 1) = some b

instance (a b : Char) (l : Str) (i : Nat) : Decidable (pairAt a b l i) := by
  unfold pairAt
  infer_instance

/-- Index `i` of `l` carries a sentence-ending mark: `'. '`, `'! '` or `'? '`. -/
def sentEndAt (l : Str) (i : Nat) : Prop :=
  pairAt '.' ' ' l i ∨ pairAt '!' ' ' l i ∨ pairAt '?' ' ' l i

instance (l : Str) (i : Nat) : Decidable (sentEndAt l i) := by
  unfold sentEndAt
  infer_instance

/-- Truncation as claim C5 words it: a sentence-ending mark found **at or
after 70% of max_length** (the exact rational threshold
`10 * index ≥ 7 * max_length`) is used as the cut point; compared against the
code's `truncateClean`, whose comparison is strict and in double precision. -/
def claimTruncateClean (maxLength : Nat) (cleanText : Str) : Str :=
  if maxLength ≠ 0 ∧ maxLength < cleanText.length then
    let truncated := cleanText.take maxLength
    if 7 * (maxLength : Int) ≤ 10 * lastSentenceEnd truncated then
      truncated.take ((lastSentenceEnd truncated).toNat + 1) ++ ['.', '.']
    else
      truncated ++ ['.', '.', '.']
  else cleanText

/-- `_clean_text` with `claimTruncateClean` in place of the code's truncation. -/
def claim_clean_text (singleLetterWords : List Str) (maxLength : Nat) (text : Str) : Str :=
  if text.isEmpty then []
  else pyStrip (claimTruncateClean maxLength (cleanCore singleLetterWords text))

/-! ## Search hits and the page-deduplication algorithm (`get_relevant_documents`) -/

/-- One dict of the list returned by `QdrantRepository.search`
(qdrant_repository.py lines 246–252).  The float similarity score is omitted:
no embedded operation consults it.  `number_page` is the payload's page number;
`none` models the default `""` used when the payload lacks the key. -/
structure SearchResult where
  text : Str
  source : Str
  number_page : Option Int
  hitType : Str

/-- Python truthiness of the `number_page` entry: `""` (here `none`) and `0` are
falsy, every other integer is truthy. -/
def pageTruthy : Option Int → Bool
  | none => false
  | some n => n != 0

/-- The list comprehension of `get_relevant_documents` (lines 262–266):
`[int(result["number_page"]) for result in search_results if result.get("number_page")]`. -/
def pageNumbers (results : List SearchResult) : List Int :=
  (results.filter (fun r => pageTruthy r.number_page)).map (fun r => r.number_page.getD 0)

/-- The `while` loop of `get_relevant_documents` (lines 268–273): walk the page
list in order while fewer than `maxPages` unique pages are collected, appending
a page only when it is not already in the output. -/
def uniqueLoop (maxPages : Nat) : List Int → List Int → List Int
  | acc, [] => acc
  | acc, p :: rest =>
    if acc.length < maxPages then
      uniqueLoop maxPages (if p ∈ acc then acc else acc ++ [p]) rest
    else acc

/-- `QdrantRepository.get_relevant_documents` (lines 254–275), taking the ranked
search hits as input (the similarity search itself is the vector-store black
box): extract truthy page numbers in ranked order, then deduplicate, bounded by
`maxPages`. -/
def get_relevant_documents (results : List SearchResult) (maxPages : Nat) : List Int :=
  uniqueLoop maxPages [] (pageNumbers results)

/-- Specification-level description of the dedup (spec section 4.2,
`relevant_pages`): keep the first occurrence of each page number, preserving
input order; the bound is expressed by `take` afterwards. -/
def firstSeenDedup : List Int → List Int
  | [] => []
  | p :: rest => p :: firstSeenDedup (rest.filter (fun x => x != p))
termination_by l => l.length
decreasing_by
  simp only [List.length_cons]
  exact Nat.lt_succ_of_le (List.length_filter_le _ rest)

/-- Concrete ranked hits whose page numbers are `[3, 1, 3, 2, 1, 5]`
(spec section 8, dedup example). -/
def demoHits : List SearchResult :=
  [⟨"t1".toList, "f.pdf".toList, some 3, "chunk".toList⟩,
   ⟨"t2".toList, "f.pdf".toList, some 1, "chunk".toList⟩,
   ⟨"t3".toList, "f.pdf".toList, some 3, "chunk".toList⟩,
   ⟨"t4".toList, "f.pdf".toList, some 2, "chunk".toList⟩,
   ⟨"t5".toList, "f.pdf".toList, some 1, "chunk".toList⟩,
   ⟨"t6".toList, "f.pdf".toList, some 5, "chunk".toList⟩]

/-! ## Collection naming (`DocumentVector`) -/

/-- Worker for `pySplitSep`; `cur` holds the (reversed) current field. -/
def pySplitSepAux (sep : Char) (cur : Str) : Str → List Str
  | [] => [cur.reverse]
  | c :: cs =>
    if c = sep then cur.reverse :: pySplitSepAux sep [] cs
    else pySplitSepAux sep (c :: cur) cs

/-- Python `str.split(sep)` for a one-character separator: fields between
separators, empties kept, always at least one field. -/
def pySplitSep (sep : Char) (l : Str) : List Str :=
  pySplitSepAux sep [] l

/-- `DocumentVector._get_collection_basename` (domain.py lines 41–45):
`filename.split(".")[0]`.  `split` always returns a nonempty list, so the `[0]`
indexing cannot fail; `headD` is that total indexing. -/
def get_collection_basename (filename : Str) : Str :=
  (pySplitSep '.' filename).headD []

/-- `DocumentVector.CHUNK_COLLECTION_ENDING` (domain.py line 16). -/
def CHUNK_COLLECTION_ENDING : Str := "_chunks".toList

/-- `DocumentVector.PAGE_COLLECTION_ENDING` (domain.py line 17). -/
def PAGE_COLLECTION_ENDING : Str := "_pages".toList

/-- `DocumentVector._get_chunks_collection_name` (domain.py lines 47–51). -/
def get_chunks_collection_name (basename : Str) : Str :=
  basename ++ CHUNK_COLLECTION_ENDING

/-- `DocumentVector._get_pages_collection_name` (domain.py lines 53–55). -/
def get_pages_collection_name (basename : Str) : Str :=
  basename ++ PAGE_COLLECTION_ENDING

/-! ## The vector-store model

The vector database engine is an external collaborator (spec sections 1 and 6):
a black-box store of named collections of points.  Embedded here is exactly the
state an embedded repository operation can observe or change: the payloads, per
collection.  Vectors are computed by the (black-box) embedding model from the
same `texts` list that provides the payload texts and are never read back by any
embedded operation, so they are not materialized in the state. -/

/-- A stored point's payload, as built by `upload_chunks` (qdrant_repository.py
lines 181–188) and `upload_pages` (lines 220–226).  `index` is the dict's
`"chunk_index"` / `"page_index"` entry; `page_link` is only set for chunks;
`ptype` is the dict's `"type"` entry. -/
structure Payload where
  text : Str
  number_page : Int
  source : Str
  index : Nat
  page_link : Option Str
  ptype : Str
deriving DecidableEq

/-- The observable vector-store state: named collections of payloads, in
creation order. -/
structure QdrantState where
  collections : List (Str × List Payload)
deriving DecidableEq

/-- `client.collection_exists(name)`. -/
def collectionExists (st : QdrantState) (name : Str) : Bool :=
  st.collections.any (fun c => c.1 == name)

/-- `client.create_collection(name, …)`: adds an empty collection (the vector
dimensionality and distance metric are black-box configuration). -/
def create_collection (st : QdrantState) (name : Str) : QdrantState :=
  ⟨st.collections ++ [(name, [])]⟩

/-- `QdrantRepository._ensure_collection_exists` (qdrant_repository.py lines
143–154): create the collection only if it does not exist. -/
def ensure_collection_exists (st : QdrantState) (name : Str) : QdrantState :=
  if collectionExists st name then st else create_collection st name

/-- `client.upload_points(collection_name, points)`: append the points to the
named collection. -/
def upload_points (st : QdrantState) (name : Str) (pts : List Payload) : QdrantState :=
  ⟨st.collections.map (fun c => if c.1 == name then (c.1, c.2 ++ pts) else c)⟩

/-- Remove a named collection from the store. -/
def removeCollection (st : QdrantState) (name : Str) : QdrantState :=
  ⟨st.collections.filter (fun c => !(c.1 == name))⟩

/-- Modelled from the spec: `client.delete_collection(name)` of the vector-store
black box (spec section 6, "create/check/delete collection by name"; section 7
requires deletion of an absent collection to be tolerated).  The qdrant client
reports the outcome as a boolean — `True` when the collection existed and was
deleted, `False` when there was nothing to delete — rather than raising. -/
def clientDeleteCollection (st : QdrantState) (name : Str) : QdrantState × Bool :=
  if collectionExists st name then (removeCollection st name, true) else (st, false)

/-! ## Upload filtering (`upload_chunks` / `upload_pages`) -/

/-- `CustomChunk` (qdrant_repository.py lines 20–24). -/
structure CustomChunk where
  number_page : Int
  page_content : Str
  page_link : Option Str
deriving DecidableEq

/-- `CustomPage` (qdrant_repository.py lines 15–18). -/
structure CustomPage where
  number_page : Int
  page_content : Str
deriving DecidableEq

/-- The per-record quality filter of the upload loops (qdrant_repository.py
lines 165–166 and 204–205): keep a record when its normalized, stripped text is
longer than 50 characters.  `_clean_text` is called with its defaults
(`max_length = 2000` and the configured keep set, here a parameter). -/
def chunkKeep (slw : List Str) (content : Str) : Bool :=
  decide (50 < (pyStrip (clean_text slw 2000 content)).length)

/-- The filtering loop of `upload_chunks` (lines 161–168): build the parallel
lists `texts` and `clean_chunks`. -/
def collectCleanChunks (slw : List Str) (chunks : List CustomChunk) :
    List Str × List CustomChunk :=
  chunks.foldl (fun acc chunk =>
    if chunkKeep slw chunk.page_content then
      (acc.1 ++ [clean_text slw 2000 chunk.page_content], acc.2 ++ [chunk])
    else acc) ([], [])

/-- The filtering loop of `upload_pages` (lines 200–207). -/
def collectCleanPages (slw : List Str) (pages : List CustomPage) :
    List Str × List CustomPage :=
  pages.foldl (fun acc page =>
    if chunkKeep slw page.page_content then
      (acc.1 ++ [clean_text slw 2000 page.page_content], acc.2 ++ [page])
    else acc) ([], [])

/-- The point-building loop of `upload_chunks` (lines 176–189):
`enumerate(zip(embeddings, clean_chunks, texts))`; `embeddings` has the same
length as `texts`, so the zip pairs each surviving chunk with its clean text;
the random `uuid4` point ids are black-box and not materialized. -/
def mkChunkPoints (cleanChunks : List CustomChunk) (texts : List Str) (source : Str) :
    List Payload :=
  ((cleanChunks.zip texts).enum).map (fun ic =>
    { text := ic.2.2, number_page := ic.2.1.number_page + 1, source := source,
      index := ic.1, page_link := ic.2.1.page_link, ptype := "chunk".toList })

/-- The point-building loop of `upload_pages` (lines 215–227). -/
def mkPagePoints (cleanPages : List CustomPage) (texts : List Str) (source : Str) :
    List Payload :=
  ((cleanPages.zip texts).enum).map (fun ic =>
    { text := ic.2.2, number_page := ic.2.1.number_page + 1, source := source,
      index := ic.1, page_link := none, ptype := "page".toList })

/-- `QdrantRepository.upload_chunks` (qdrant_repository.py lines 156–194):
filter the records, return unchanged when nothing survives (before any
embedding, collection creation or write), otherwise ensure the collection and
append the points. -/
def upload_chunks (slw : List Str) (st : QdrantState) (collection : Str)
    (chunks : List CustomChunk) (source : Str) : QdrantState :=
  let tc := collectCleanChunks slw chunks
  if tc.1.isEmpty then st
  else
    upload_points (ensure_collection_exists st collection) collection
      (mkChunkPoints tc.2 tc.1 source)

/-- `QdrantRepository.upload_pages` (qdrant_repository.py lines 196–232). -/
def upload_pages (slw : List Str) (st : QdrantState) (collection : Str)
    (pages : List CustomPage) (source : Str) : QdrantState :=
  let tc := collectCleanPages slw pages
  if tc.1.isEmpty then st
  else
    upload_points (ensure_collection_exists st collection) collection
      (mkPagePoints tc.2 tc.1 source)

/-! ## Page lookup (`get_chunk_by_page`) -/

/-- The Python error conditions the embedded operations can surface. -/
inductive PyError where
  | fileNotFound
  | indexError
  | clientError
deriving DecidableEq

/-- `client.scroll(collection_name, scroll_filter=[number_page == page],
limit=…)` (qdrant_repository.py lines 308–318): returns the pair
`(points, next_page_offset)`; looking up a collection that does not exist is an
upstream client error. -/
def scroll (st : QdrantState) (collection : Str) (page : Int) (limit : Nat) :
    Except PyError (List Payload × Option Nat) :=
  match st.collections.find? (fun c => c.1 == collection) with
  | none => .error .clientError
  | some c => .ok ((c.2.filter (fun r => r.number_page == page)).take limit, none)

/-- Python truthiness of the value `scroll` returns: it is the 2-tuple
`(points, next_page_offset)`, and a nonempty tuple is always truthy — even when
the points list inside it is empty.  `if not search_result:` therefore never
fires. -/
def pyTruthyPair (x : List Payload × Option Nat) : Bool :=
  let _ := x
  true

/-- `QdrantRepository.get_chunk_by_page` (qdrant_repository.py lines 300–323):
scroll with an exact `number_page` filter and `limit=1`; return `None` when the
guard fires (it never does, see `pyTruthyPair`); otherwise
`search_result[0][0].payload["text"]`, which raises `IndexError` when the
points list `search_result[0]` is empty. -/
def get_chunk_by_page (st : QdrantState) (collection : Str) (page : Int) :
    Except PyError (Option Str) :=
  match scroll st collection page 1 with
  | .error e => .error e
  | .ok searchResult =>
    if pyTruthyPair searchResult = false then .ok none
    else
      match searchResult.1 with
      | [] => .error .indexError
      | r :: _ => .ok (some r.text)

/-- Whether a lookup outcome is the absent value `None` returned without error. -/
def isOkNone : Except PyError (Option Str) → Bool
  | .ok none => true
  | _ => false

/-! ## Batch collection deletion (`delete_collections`) -/

/-- `QdrantRepository.delete_collections` (qdrant_repository.py lines 289–298):
delete each name in order, appending every name to `deleted_collections`
unconditionally — the client's boolean result is ignored. -/
def delete_collections (st : QdrantState) (names : List Str) : QdrantState × List Str :=
  names.foldl (fun acc name =>
    ((clientDeleteCollection acc.1 name).1, acc.2 ++ [name])) (st, [])

/-! ## Delete lifecycle (`delete_rag_file`) -/

/-- The state `delete_rag_file` touches: the managed storage directory (a set of
file names; `os.path.exists` is membership, `os.remove` is removal) and the
vector store. -/
structure SysState where
  files : List Str
  qdrant : QdrantState
deriving DecidableEq

/-- `DocumentVector.delete_rag_file` (domain.py lines 133–154).  `failing`
injects upstream vector-store failures (spec section 7): deleting a collection
listed there raises in the client, which propagates out of `delete_rag_file`
before any later statement runs.  The result carries the state as left behind
plus the error condition, if any. -/
def delete_rag_file (failing : List Str) (st : SysState) (filename : Str) :
    SysState × Option PyError :=
  if filename ∉ st.files then (st, some .fileNotFound)
  else
    let basename := get_collection_basename filename
    let colPages := get_pages_collection_name basename
    let colChunks := get_chunks_collection_name basename
    if colChunks ∈ failing then (st, some .clientError)
    else
      let st1 : SysState := ⟨st.files, (clientDeleteCollection st.qdrant colChunks).1⟩
      if colPages ∈ failing then (st1, some .clientError)
      else
        let st2 : SysState := ⟨st1.files, (clientDeleteCollection st1.qdrant colPages).1⟩
        (⟨st2.files.erase filename, st2.qdrant⟩, none)

/-! ## Prompt templating (`generate_prompt_from_template`, `initialize_ollama`) -/

/-- Python's substring operator `needle in haystack` (used by the template
checks in config.py lines 97–103): some occurrence of `u` starts at some index
of `l`. -/
def occursB (u : Str) : Str → Bool
  | [] => u.isEmpty
  | c :: cs => u.isPrefixOf (c :: cs) || occursB u cs

/-- Propositional form of substring occurrence. -/
def occursIn (u l : Str) : Prop :=
  ∃ s t, l = s ++ u ++ t

/-- The placeholder `"{query}"` (`'\x7b'`/`'\x7d'` are the braces). -/
def queryMarker : Str := ['\x7b', 'q', 'u', 'e', 'r', 'y', '\x7d']

/-- The placeholder `"{sources}"`. -/
def sourcesMarker : Str := ['\x7b', 's', 'o', 'u', 'r', 'c', 'e', 's', '\x7d']

/-- Worker for `replaceAll`: `skip` counts characters of a matched pattern
occurrence still to be consumed. -/
def replaceAllAux (pat repl : Str) : Str → Nat → Str
  | [], _ => []
  | _ :: cs, skip + 1 => replaceAllAux pat repl cs skip
  | c :: cs, 0 =>
    if pat ≠ [] ∧ pat.isPrefixOf (c :: cs) then
      repl ++ replaceAllAux pat repl cs (pat.length - 1)
    else c :: replaceAllAux pat repl cs 0

/-- Python `str.replace(pat, repl)` for a nonempty pattern: replace the
non-overlapping occurrences left to right; replacement text is not rescanned.
(For an empty pattern Python would insert `repl` at every boundary; the two
call sites only ever pass the nonempty `"{query}"` / `"{sources}"`.) -/
def replaceAll (pat repl l : Str) : Str :=
  replaceAllAux pat repl l 0

/-- The prompt construction of `OllamaProcessor.generate_prompt_from_template`
(ollama_processor.py lines 44–53): substitute every `"{query}"` by the query,
then every `"{sources}"` in the intermediate result by the sources text.  The
trailing `self.generate(prompt)` call is the LLM black box and is not part of
the prompt construction. -/
def generate_prompt (query sources template : Str) : Str :=
  replaceAll sourcesMarker sources (replaceAll queryMarker query template)

/-- The built-in default template (config.py lines 105–118; the adjacent Python
string literals concatenate). -/
def defaultTemplate : Str :=
  ("Based on the sources provided below, give an accurate answer to the question."
    ++ "\n\n"
    ++ "QUESTION:"
    ++ "{query}"
    ++ "\n\n"
    ++ "SOURCES:"
    ++ "{sources}"
    ++ "\n\n"
    ++ "INSTRUCTIONS:"
    ++ "- Answer as accurately as possible based on the sources"
    ++ "- If the information is not in the sources, state this clearly"
    ++ "- Do not mention the sources in your answer, just provide the information").toList

/-- The template selection of `initialize_ollama` (config.py lines 89–118):
`fileContent` is the text of `text_prompt.txt`, or `none` when opening it
raised.  An empty (after strip) content, or one missing either placeholder,
falls back to the built-in default; the bare `raise` statements sit inside the
`try` block, so its own `except` catches them and selection never raises. -/
def selectTemplate (fileContent : Option Str) : Str :=
  match fileContent with
  | none => defaultTemplate
  | some t =>
    if (pyStrip t).length = 0 then defaultTemplate
    else if occursB queryMarker t = false then defaultTemplate
    else if occursB sourcesMarker t = false then defaultTemplate
    else t

/-- Worker for `simulSubst`. -/
def simulSubstAux (query sources : Str) : Str → Nat → Str
  | [], _ => []
  | _ :: cs, skip + 1 => simulSubstAux query sources cs skip
  | c :: cs, 0 =>
    if queryMarker.isPrefixOf (c :: cs) then
      query ++ simulSubstAux query sources cs (queryMarker.length - 1)
    else if sourcesMarker.isPrefixOf (c :: cs) then
      sources ++ simulSubstAux query sources cs (sourcesMarker.length - 1)
    else c :: simulSubstAux query sources cs 0

/-- Simultaneous (single-pass) substitution of both placeholders, in which
substituted text is never rescanned — the contrast for claim C10's
"sequential rather than simultaneous". -/
def simulSubst (query sources l : Str) : Str :=
  simulSubstAux query sources l 0

/-- A small template holding both placeholders, for concrete evaluations. -/
def demoTemplate : Str := "Q:{query} S:{sources}".toList

/-! ## Concrete states for evaluating theorems with hypotheses -/

/-- A one-collection store (no points), for concrete evaluation. -/
def demoState : QdrantState := ⟨[("existing".toList, [])]⟩

/-- A store containing exactly one stored page payload for page 1. -/
def demoPageState : QdrantState :=
  ⟨[("doc_pages".toList,
     [{ text := "hello".toList, number_page := 1, source := "doc.pdf".toList,
        index := 0, page_link := none, ptype := "page".toList }])]⟩

/-- A chunk whose text is far below the 50-character quality threshold. -/
def shortChunk : CustomChunk :=
  { number_page := 0, page_content := "hi there".toList, page_link := none }

/-- A page whose text is far below the 50-character quality threshold. -/
def shortPage : CustomPage :=
  { number_page := 0, page_content := "hi there".toList }

/-- A managed file plus its two collections, for the delete lifecycle. -/
def demoSys : SysState :=
  ⟨["report.v2.pdf".toList],
   ⟨[("report_pages".toList, []), ("report_chunks".toList, []), ("other".toList, [])]⟩⟩

/-! ## Theorems -/

/-- The loop of `get_relevant_documents` computes first-seen deduplication of
the pages not already collected, truncated to the remaining capacity. -/
theorem uniqueLoop_eq (m : Nat) (pages : List Int) : ∀ acc : List Int,
    uniqueLoop m acc pages =
      acc ++ (firstSeenDedup (pages.filter (fun x => decide (x ∉ acc)))).take (m - acc.length) := by
  induction pages with
  | nil =>
    intro acc
    have h0 : firstSeenDedup [] = [] := by rw [firstSeenDedup]
    simp [uniqueLoop, h0]
  | cons p rest ih =>
    intro acc
    by_cases h : acc.length < m
    · simp only [uniqueLoop, if_pos h]
      by_cases hp : p ∈ acc
      · rw [if_pos hp, ih acc]
        have : (p :: rest).filter (fun x => decide (x ∉ acc)) =
            rest.filter (fun x => decide (x ∉ acc)) := by
          simp [List.filter, hp]
        rw [this]
      · rw [if_neg hp, ih (acc ++ [p])]
        have hfil : (p :: rest).filter (fun x => decide (x ∉ acc)) =
            p :: rest.filter (fun x => decide (x ∉ acc)) := by
          simp [List.filter, hp]
        rw [hfil]
        have hstep : firstSeenDedup (p :: rest.filter (fun x => decide (x ∉ acc))) =
            p :: firstSeenDedup ((rest.filter (fun x => decide (x ∉ acc))).filter
              (fun x => x != p)) := by
          rw [firstSeenDedup]
        rw [hstep]
        have hff : ((rest.filter (fun x => decide (x ∉ acc))).filter (fun x => x != p)) =
            rest.filter (fun x => decide (x ∉ acc ++ [p])) := by
          rw [List.filter_filter]
          apply List.filter_congr
          intro x _
          by_cases hx : x ∈ acc <;> by_cases hxp : x = p <;>
            simp [hx, hxp, List.mem_append]
        rw [hff]
        have hm : m - acc.length = (m - (acc ++ [p]).length) + 1 := by
          simp only [List.length_append, List.length_singleton]
          omega
        rw [hm, List.take_succ_cons, List.append_assoc, List.singleton_append]
    · simp only [uniqueLoop, if_neg h]
      have : m - acc.length = 0 := by omega
      simp [this]

/-- C1: `get_relevant_documents` walks hits in ranked order, collects a page
number only if not already present (first-seen-wins deduplication over the
truthy page numbers of the hits), and stops once `max_pages` unique pages are
collected or hits are exhausted; in particular hits with page numbers
`[3, 1, 3, 2, 1, 5]` and `max_pages = 3` give `[3, 1, 2]`. -/
theorem C1_relevant_pages_dedup :
    (∀ (results : List SearchResult) (maxPages : Nat),
        get_relevant_documents results maxPages =
          (firstSeenDedup (pageNumbers results)).take maxPages)
    ∧ get_relevant_documents demoHits 3 = [3, 1, 2] := by
  constructor
  · intro results maxPages
    rw [get_relevant_documents, uniqueLoop_eq]
    simp
  · decide

/-- The head field of a separator split is the text before the first separator. -/
theorem pySplitSepAux_headD (sep : Char) (l : Str) : ∀ cur : Str,
    (pySplitSepAux sep cur l).headD [] =
      cur.reverse ++ l.takeWhile (fun c => decide (c ≠ sep)) := by
  induction l with
  | nil => intro cur; simp [pySplitSepAux]
  | cons c cs ih =>
    intro cur
    by_cases h : c = sep
    · simp [pySplitSepAux, h, List.takeWhile]
    · simp only [pySplitSepAux, if_neg h, ih (c :: cur), List.reverse_cons, List.takeWhile]
      simp [h]

/-- C9: the document basename is the portion of the filename before the first
dot, the pages collection is `basename ++ "_pages"`, the chunks collection is
`basename ++ "_chunks"`; `"report.v2.pdf"` gives `"report"`, `"report_pages"`,
`"report_chunks"`. -/
theorem C9_collection_naming :
    (∀ filename : Str,
        get_collection_basename filename = filename.takeWhile (fun c => decide (c ≠ '.')))
    ∧ get_collection_basename "report.v2.pdf".toList = "report".toList
    ∧ get_pages_collection_name (get_collection_basename "report.v2.pdf".toList) =
        "report_pages".toList
    ∧ get_chunks_collection_name (get_collection_basename "report.v2.pdf".toList) =
        "report_chunks".toList := by
  refine ⟨fun filename => ?_, by decide, by decide, by decide⟩
  rw [get_collection_basename, pySplitSep, pySplitSepAux_headD]
  simp

/-- C2 (code-bug evidence): when no stored record has the requested page
number, `get_chunk_by_page` raises `IndexError` instead of returning `None`:
the `if not search_result:` guard tests the `(points, offset)` 2-tuple, which
is always truthy, so `search_result[0][0]` indexes an empty list.  When a
matching record exists, its text is returned.  The guarded `None` return is
unreachable for every store, collection and page. -/
theorem C2_page_lookup_indexerror :
    get_chunk_by_page ⟨[("doc_pages".toList, [])]⟩ "doc_pages".toList 1 =
      .error .indexError
    ∧ get_chunk_by_page demoPageState "doc_pages".toList 1 = .ok (some "hello".toList)
    ∧ (∀ (st : QdrantState) (collection : Str) (page : Int),
        isOkNone (get_chunk_by_page st collection page) = false) := by
  refine ⟨rfl, rfl, fun st collection page => ?_⟩
  unfold get_chunk_by_page
  cases h : scroll st collection page 1 with
  | error e => rfl
  | ok sr =>
    obtain ⟨pts, off⟩ := sr
    cases pts <;> rfl

/-- The fold of `delete_collections`, with both accumulators generalized. -/
theorem delete_collections_aux (names : List Str) :
    ∀ (st : QdrantState) (acc : List Str),
      names.foldl (fun acc name =>
          ((clientDeleteCollection acc.1 name).1, acc.2 ++ [name])) (st, acc)
        = (names.foldl (fun s n => (clientDeleteCollection s n).1) st, acc ++ names) := by
  induction names with
  | nil => intro st acc; simp
  | cons n rest ih =>
    intro st acc
    simp only [List.foldl_cons]
    rw [ih]
    simp

/-- C4 (counterexample): deleting the single name `"ghost"` against an empty
store deletes nothing — the store is unchanged and the collection never existed
— yet the returned list is `["ghost"]`, not the empty list of actually deleted
names. -/
theorem C4_counterexample_missing_name_recorded :
    delete_collections ⟨[]⟩ ["ghost".toList] = (⟨[]⟩, ["ghost".toList])
    ∧ collectionExists ⟨[]⟩ "ghost".toList = false
    ∧ (["ghost".toList] == ([] : List Str)) = false := by
  exact ⟨by decide, by decide, by decide⟩

/-- C4 (amended): the batch delete never aborts — every requested name is
processed, the final store is the left fold of the per-name client deletions
(each of which treats a missing collection as a no-op reporting `false`) — and
the returned list is exactly the full requested list of names, in input order,
regardless of which deletions actually removed a collection. -/
theorem C4_batch_delete_returns_all_names :
    ∀ (st : QdrantState) (names : List Str),
      (delete_collections st names).2 = names
      ∧ (delete_collections st names).1 =
          names.foldl (fun s n => (clientDeleteCollection s n).1) st := by
  intro st names
  rw [delete_collections, delete_collections_aux]
  exact ⟨by simp, rfl⟩

/-- Removing a collection makes it absent. -/
theorem collectionExists_remove_self (st : QdrantState) (n : Str) :
    collectionExists (removeCollection st n) n = false := by
  simp only [collectionExists, removeCollection]
  rw [Bool.eq_false_iff]
  intro hany
  rw [List.any_eq_true] at hany
  obtain ⟨c, hc, hbeq⟩ := hany
  rw [List.mem_filter] at hc
  rw [hbeq] at hc
  simp at hc

/-- The client delete leaves the deleted name absent. -/
theorem collectionExists_clientDelete_self (st : QdrantState) (n : Str) :
    collectionExists (clientDeleteCollection st n).1 n = false := by
  unfold clientDeleteCollection
  by_cases h : collectionExists st n
  · rw [if_pos h]
    exact collectionExists_remove_self st n
  · rw [if_neg h]
    exact Bool.eq_false_iff.mpr h

/-- The client delete never adds a collection: an absent name stays absent. -/
theorem collectionExists_clientDelete_mono (st : QdrantState) (m n : Str)
    (h : collectionExists st n = false) :
    collectionExists (clientDeleteCollection st m).1 n = false := by
  unfold clientDeleteCollection
  by_cases hm : collectionExists st m
  · rw [if_pos hm]
    simp only [collectionExists, removeCollection] at h ⊢
    rw [Bool.eq_false_iff] at h ⊢
    intro hany
    apply h
    rw [List.any_eq_true] at hany ⊢
    obtain ⟨c, hc, hbeq⟩ := hany
    exact ⟨c, (List.mem_filter.mp hc).1, hbeq⟩
  · rw [if_neg hm]
    exact h

/-- C7: `delete_rag_file` fails with a not-found condition when the managed
file is absent (so a second call after a successful delete fails with
not-found); on success it removes both collections and then the file; and when
a collection deletion raises upstream, the error propagates before `os.remove`,
so the file is still present. -/
theorem C7_delete_document_lifecycle :
    (∀ (failing : List Str) (st : SysState) (filename : Str),
        filename ∉ st.files →
        delete_rag_file failing st filename = (st, some .fileNotFound))
    ∧ (∀ (st : SysState) (filename : Str),
        filename ∈ st.files → st.files.Nodup →
        (delete_rag_file [] st filename).2 = none
        ∧ filename ∉ (delete_rag_file [] st filename).1.files
        ∧ collectionExists (delete_rag_file [] st filename).1.qdrant
            (get_chunks_collection_name (get_collection_basename filename)) = false
        ∧ collectionExists (delete_rag_file [] st filename).1.qdrant
            (get_pages_collection_name (get_collection_basename filename)) = false
        ∧ delete_rag_file [] (delete_rag_file [] st filename).1 filename =
            ((delete_rag_file [] st filename).1, some .fileNotFound))
    ∧ (∀ (failing : List Str) (st : SysState) (filename : Str),
        filename ∈ st.files →
        (get_chunks_collection_name (get_collection_basename filename) ∈ failing
          ∨ get_pages_collection_name (get_collection_basename filename) ∈ failing) →
        (delete_rag_file failing st filename).2 = some .clientError
        ∧ (delete_rag_file failing st filename).1.files = st.files) := by
  refine ⟨fun failing st filename h => ?_, fun st filename hmem hnd => ?_,
    fun failing st filename hmem hfail => ?_⟩
  · simp only [delete_rag_file]
    rw [if_pos h]
  · have hrun : delete_rag_file [] st filename =
        (⟨st.files.erase filename,
          (clientDeleteCollection
            (clientDeleteCollection st.qdrant
              (get_chunks_collection_name (get_collection_basename filename))).1
            (get_pages_collection_name (get_collection_basename filename))).1⟩, none) := by
      simp only [delete_rag_file]
      rw [if_neg (by simp [hmem]), if_neg (List.not_mem_nil _), if_neg (List.not_mem_nil _)]
    rw [hrun]
    refine ⟨rfl, hnd.not_mem_erase, ?_, ?_, ?_⟩
    · exact collectionExists_clientDelete_mono _ _ _
        (collectionExists_clientDelete_self _ _)
    · exact collectionExists_clientDelete_self _ _
    · simp only [delete_rag_file]
      rw [if_pos]
      exact hnd.not_mem_erase
  · by_cases hc : get_chunks_collection_name (get_collection_basename filename) ∈ failing
    · have hrun : delete_rag_file failing st filename = (st, some .clientError) := by
        simp only [delete_rag_file]
        rw [if_neg (by simp [hmem]), if_pos hc]
      rw [hrun]
      exact ⟨rfl, rfl⟩
    · have hp : get_pages_collection_name (get_collection_basename filename) ∈ failing := by
        rcases hfail with h | h
        · exact absurd h hc
        · exact h
      have hrun : delete_rag_file failing st filename =
          (⟨st.files,
            (clientDeleteCollection st.qdrant
              (get_chunks_collection_name (get_collection_basename filename))).1⟩,
           some .clientError) := by
        simp only [delete_rag_file]
        rw [if_neg (by simp [hmem]), if_neg hc, if_pos hp]
      rw [hrun]
      exact ⟨rfl, rfl⟩

/-- C7 witness: concrete runs of all three parts of the lifecycle theorem on
`demoSys` (file `"report.v2.pdf"` with collections `report_pages` and
`report_chunks`). -/
theorem C7_delete_document_lifecycle_witness :
    ("missing.pdf".toList ∉ demoSys.files
      ∧ delete_rag_file [] demoSys "missing.pdf".toList = (demoSys, some .fileNotFound))
    ∧ ("report.v2.pdf".toList ∈ demoSys.files ∧ demoSys.files.Nodup
      ∧ (delete_rag_file [] demoSys "report.v2.pdf".toList).2 = none
      ∧ "report.v2.pdf".toList ∉ (delete_rag_file [] demoSys "report.v2.pdf".toList).1.files
      ∧ delete_rag_file [] (delete_rag_file [] demoSys "report.v2.pdf".toList).1
          "report.v2.pdf".toList =
          ((delete_rag_file [] demoSys "report.v2.pdf".toList).1, some .fileNotFound))
    ∧ ("report.v2.pdf".toList ∈ demoSys.files
      ∧ (delete_rag_file ["report_chunks".toList] demoSys "report.v2.pdf".toList).2 =
          some .clientError
      ∧ (delete_rag_file ["report_chunks".toList] demoSys "report.v2.pdf".toList).1.files =
          demoSys.files) := by
  have h := C7_delete_document_lifecycle
  refine ⟨⟨by decide, h.1 [] demoSys "missing.pdf".toList (by decide)⟩, ?_, ?_⟩
  · have h2 := h.2.1 demoSys "report.v2.pdf".toList (by decide) (by decide)
    exact ⟨by decide, by decide, h2.1, h2.2.1, h2.2.2.2.2⟩
  · have h3 := h.2.2 ["report_chunks".toList] demoSys "report.v2.pdf".toList
      (by decide) (Or.inl (by decide))
    exact ⟨by decide, h3.1, h3.2⟩

/-- The fuel-based logarithm agrees with `Nat.log2` whenever `n < 2 ^ fuel`. -/
theorem log2Aux_eq (fuel : Nat) : ∀ n : Nat, n < 2 ^ fuel → log2Aux fuel n = Nat.log2 n := by
  induction fuel with
  | zero =>
    intro n hn
    interval_cases n
    rw [log2Aux, Nat.log2]
    simp
  | succ fuel ih =>
    intro n hn
    rw [log2Aux, Nat.log2]
    by_cases h : 2 ≤ n
    · have hdiv : n / 2 < 2 ^ fuel := by
        rw [pow_succ] at hn
        omega
      rw [if_pos h, if_pos h, ih (n / 2) hdiv]
    · rw [if_neg h, if_neg h]

/-- `natLog2` is `Nat.log2` on the whole range where Python's float conversion
is defined. -/
theorem natLog2_eq (n : Nat) (hn : n < 2 ^ 1100) : natLog2 n = Nat.log2 n :=
  log2Aux_eq 1100 n hn

/-- The head of `dropWhile p` does not satisfy `p`. -/
theorem dropWhile_headNot (p : Char → Bool) (l : Str) :
    ∀ c, (l.dropWhile p).head? = some c → p c = false := by
  induction l with
  | nil => intro c hc; simp [List.dropWhile] at hc
  | cons a as ih =>
    intro c hc
    by_cases h : p a
    · rw [List.dropWhile_cons, if_pos h] at hc
      exact ih c hc
    · rw [List.dropWhile_cons, if_neg h] at hc
      simp at hc
      rw [← hc]
      exact Bool.eq_false_iff.mpr h

/-- A list whose head fails `p` is unchanged by `dropWhile p`. -/
theorem dropWhile_eq_self_of_headNot (p : Char → Bool) (l : Str)
    (h : ∀ c, l.head? = some c → p c = false) : l.dropWhile p = l := by
  cases l with
  | nil => rfl
  | cons a as =>
    have := h a rfl
    rw [List.dropWhile_cons, if_neg (by simp [this])]

/-- `dropWhile` removes a prefix. -/
theorem dropWhile_exists_append (p : Char → Bool) (l : Str) :
    ∃ t, t ++ l.dropWhile p = l := by
  induction l with
  | nil => exact ⟨[], rfl⟩
  | cons a as ih =>
    by_cases h : p a
    · obtain ⟨t, ht⟩ := ih
      exact ⟨a :: t, by rw [List.dropWhile_cons, if_pos h, List.cons_append, ht]⟩
    · exact ⟨[], by rw [List.dropWhile_cons, if_neg h, List.nil_append]⟩

/-- The head of a nonempty left summand is the head of the append. -/
theorem head_of_append_eq {z t y : Str} (ht : z ++ t = y) {c : Char}
    (hc : z.head? = some c) : y.head? = some c := by
  subst ht
  cases z with
  | nil => simp at hc
  | cons a zs =>
    simp only [List.head?_cons, Option.some.injEq] at hc
    rw [List.cons_append, List.head?_cons, hc]

/-- Stripping a list whose head is non-space and which arises from a trailing
`dropWhile` is the identity. -/
theorem pyStrip_trimmed (y : Str) (hy : ∀ c, y.head? = some c → pySpace c = false) :
    pyStrip ((y.reverse.dropWhile pySpace).reverse) = (y.reverse.dropWhile pySpace).reverse := by
  have hzprefix : ∃ t, (y.reverse.dropWhile pySpace).reverse ++ t = y := by
    obtain ⟨t, ht⟩ := dropWhile_exists_append pySpace y.reverse
    refine ⟨t.reverse, ?_⟩
    rw [← List.reverse_append, ht, List.reverse_reverse]
  have hz : ∀ c, ((y.reverse.dropWhile pySpace).reverse).head? = some c →
      pySpace c = false := by
    intro c hc
    obtain ⟨t, ht⟩ := hzprefix
    exact hy c (head_of_append_eq ht hc)
  show (((((y.reverse.dropWhile pySpace).reverse).dropWhile pySpace).reverse).dropWhile
      pySpace).reverse = (y.reverse.dropWhile pySpace).reverse
  rw [dropWhile_eq_self_of_headNot pySpace _ hz, List.reverse_reverse,
    dropWhile_eq_self_of_headNot pySpace _ (dropWhile_headNot pySpace y.reverse)]

/-- `str.strip()` is idempotent. -/
theorem pyStrip_idem (l : Str) : pyStrip (pyStrip l) = pyStrip l := by
  exact pyStrip_trimmed (l.dropWhile pySpace) (dropWhile_headNot pySpace l)

/-- The output of `_clean_text` is already stripped. -/
theorem pyStrip_clean_text (slw : List Str) (m : Nat) (t : Str) :
    pyStrip (clean_text slw m t) = clean_text slw m t := by
  unfold clean_text
  by_cases h : t.isEmpty
  · rw [if_pos h]
    rfl
  · rw [if_neg h]
    exact pyStrip_idem _

/-- The chunk-filtering fold builds the filtered record list and its clean
texts, in input order. -/
theorem collectCleanChunks_eq (slw : List Str) (chunks : List CustomChunk) :
    collectCleanChunks slw chunks =
      ((chunks.filter (fun c => chunkKeep slw c.page_content)).map
          (fun c => clean_text slw 2000 c.page_content),
        chunks.filter (fun c => chunkKeep slw c.page_content)) := by
  have aux : ∀ (cl : List CustomChunk) (ts : List Str) (cs : List CustomChunk),
      cl.foldl (fun acc chunk =>
        if chunkKeep slw chunk.page_content then
          (acc.1 ++ [clean_text slw 2000 chunk.page_content], acc.2 ++ [chunk])
        else acc) (ts, cs)
      = (ts ++ (cl.filter (fun c => chunkKeep slw c.page_content)).map
            (fun c => clean_text slw 2000 c.page_content),
         cs ++ cl.filter (fun c => chunkKeep slw c.page_content)) := by
    intro cl
    induction cl with
    | nil => intro ts cs; simp
    | cons c rest ih =>
      intro ts cs
      cases h : chunkKeep slw c.page_content
      · simp [List.foldl_cons, List.filter_cons, h, ih]
      · simp [List.foldl_cons, List.filter_cons, h, ih]
  rw [collectCleanChunks, aux]
  simp

/-- The page-filtering fold, same shape. -/
theorem collectCleanPages_eq (slw : List Str) (pages : List CustomPage) :
    collectCleanPages slw pages =
      ((pages.filter (fun p => chunkKeep slw p.page_content)).map
          (fun p => clean_text slw 2000 p.page_content),
        pages.filter (fun p => chunkKeep slw p.page_content)) := by
  have aux : ∀ (pl : List CustomPage) (ts : List Str) (cs : List CustomPage),
      pl.foldl (fun acc page =>
        if chunkKeep slw page.page_content then
          (acc.1 ++ [clean_text slw 2000 page.page_content], acc.2 ++ [page])
        else acc) (ts, cs)
      = (ts ++ (pl.filter (fun p => chunkKeep slw p.page_content)).map
            (fun p => clean_text slw 2000 p.page_content),
         cs ++ pl.filter (fun p => chunkKeep slw p.page_content)) := by
    intro pl
    induction pl with
    | nil => intro ts cs; simp
    | cons c rest ih =>
      intro ts cs
      cases h : chunkKeep slw c.page_content
      · simp [List.foldl_cons, List.filter_cons, h, ih]
      · simp [List.foldl_cons, List.filter_cons, h, ih]
  rw [collectCleanPages, aux]
  simp

/-- `upload_chunks`, re-expressed through `List.filter`: exactly the records
passing the 50-character filter are written. -/
theorem upload_chunks_eq (slw : List Str) (st : QdrantState) (collection : Str)
    (chunks : List CustomChunk) (source : Str) :
    upload_chunks slw st collection chunks source =
      if (chunks.filter (fun c => chunkKeep slw c.page_content)).isEmpty then st
      else
        upload_points (ensure_collection_exists st collection) collection
          (mkChunkPoints (chunks.filter (fun c => chunkKeep slw c.page_content))
            ((chunks.filter (fun c => chunkKeep slw c.page_content)).map
              (fun c => clean_text slw 2000 c.page_content)) source) := by
  rw [upload_chunks, collectCleanChunks_eq]
  by_cases h : (chunks.filter (fun c => chunkKeep slw c.page_content)) = []
  · simp [h]
  · rw [if_neg (by simp [h]), if_neg (by simp [h])]

/-- `upload_pages`, re-expressed through `List.filter`. -/
theorem upload_pages_eq (slw : List Str) (st : QdrantState) (collection : Str)
    (pages : List CustomPage) (source : Str) :
    upload_pages slw st collection pages source =
      if (pages.filter (fun p => chunkKeep slw p.page_content)).isEmpty then st
      else
        upload_points (ensure_collection_exists st collection) collection
          (mkPagePoints (pages.filter (fun p => chunkKeep slw p.page_content))
            ((pages.filter (fun p => chunkKeep slw p.page_content)).map
              (fun p => clean_text slw 2000 p.page_content)) source) := by
  rw [upload_pages, collectCleanPages_eq]
  by_cases h : (pages.filter (fun p => chunkKeep slw p.page_content)) = []
  · simp [h]
  · rw [if_neg (by simp [h]), if_neg (by simp [h])]

/-- C3: every record whose normalized text is at most 50 characters long is
dropped by the upload filter — the written points come exactly from the records
whose normalized, stripped text exceeds 50 characters — and when no record
survives, both `upload_chunks` and `upload_pages` return with the store
unchanged: no collection is created and no points are written. -/
theorem C3_upload_short_records_dropped :
    (∀ (slw : List Str) (st : QdrantState) (collection : Str)
        (chunks : List CustomChunk) (source : Str),
        upload_chunks slw st collection chunks source =
          if (chunks.filter (fun c => chunkKeep slw c.page_content)).isEmpty then st
          else
            upload_points (ensure_collection_exists st collection) collection
              (mkChunkPoints (chunks.filter (fun c => chunkKeep slw c.page_content))
                ((chunks.filter (fun c => chunkKeep slw c.page_content)).map
                  (fun c => clean_text slw 2000 c.page_content)) source))
    ∧ (∀ (slw : List Str) (st : QdrantState) (collection : Str)
        (pages : List CustomPage) (source : Str),
        upload_pages slw st collection pages source =
          if (pages.filter (fun p => chunkKeep slw p.page_content)).isEmpty then st
          else
            upload_points (ensure_collection_exists st collection) collection
              (mkPagePoints (pages.filter (fun p => chunkKeep slw p.page_content))
                ((pages.filter (fun p => chunkKeep slw p.page_content)).map
                  (fun p => clean_text slw 2000 p.page_content)) source))
    ∧ (∀ (slw : List Str) (st : QdrantState) (collection : Str)
        (chunks : List CustomChunk) (source : Str),
        (∀ c ∈ chunks, (clean_text slw 2000 c.page_content).length ≤ 50) →
        upload_chunks slw st collection chunks source = st)
    ∧ (∀ (slw : List Str) (st : QdrantState) (collection : Str)
        (pages : List CustomPage) (source : Str),
        (∀ p ∈ pages, (clean_text slw 2000 p.page_content).length ≤ 50) →
        upload_pages slw st collection pages source = st) := by
  refine ⟨upload_chunks_eq, upload_pages_eq, ?_, ?_⟩
  · intro slw st collection chunks source h
    rw [upload_chunks_eq]
    have hfil : chunks.filter (fun c => chunkKeep slw c.page_content) = [] := by
      rw [List.filter_eq_nil_iff]
      intro c hc
      have hlen := h c hc
      simp only [chunkKeep, pyStrip_clean_text, decide_eq_true_eq]
      omega
    simp [hfil]
  · intro slw st collection pages source h
    rw [upload_pages_eq]
    have hfil : pages.filter (fun p => chunkKeep slw p.page_content) = [] := by
      rw [List.filter_eq_nil_iff]
      intro p hp
      have hlen := h p hp
      simp only [chunkKeep, pyStrip_clean_text, decide_eq_true_eq]
      omega
    simp [hfil]

/-- C3 witness: a single 8-character chunk and page are both below the filter,
and uploading them leaves the concrete store `demoState` unchanged. -/
theorem C3_upload_short_records_dropped_witness :
    (∀ c ∈ [shortChunk], (clean_text sampleKeepSet 2000 c.page_content).length ≤ 50)
    ∧ upload_chunks sampleKeepSet demoState "report_chunks".toList [shortChunk]
        "report.pdf".toList = demoState
    ∧ (∀ p ∈ [shortPage], (clean_text sampleKeepSet 2000 p.page_content).length ≤ 50)
    ∧ upload_pages sampleKeepSet demoState "report_pages".toList [shortPage]
        "report.pdf".toList = demoState := by
  refine ⟨by decide, ?_, by decide, ?_⟩
  · exact C3_upload_short_records_dropped.2.2.1 sampleKeepSet demoState
      "report_chunks".toList [shortChunk] "report.pdf".toList (by decide)
  · exact C3_upload_short_records_dropped.2.2.2 sampleKeepSet demoState
      "report_pages".toList [shortPage] "report.pdf".toList (by decide)

/-- The needle `[a, b]` sits at index 0 of `c :: cs` iff `c = a` and `cs`
starts with `b`. -/
theorem pairAt_cons_zero {a b c : Char} {cs : Str} :
    pairAt a b (c :: cs) 0 ↔ c = a ∧ cs.head? = some b := by
  unfold pairAt
  rw [List.get?_cons_zero, List.get?_cons_succ, List.get?_zero]
  simp [eq_comm]

/-- Shifting the needle index across a cons. -/
theorem pairAt_cons_succ {a b c : Char} {cs : Str} {j : Nat} :
    pairAt a b (c :: cs) (j + 1) ↔ pairAt a b cs j := by
  unfold pairAt
  rw [List.get?_cons_succ, List.get?_cons_succ]

/-- `rfind2` is Python's `rfind`: either `-1` and the needle occurs nowhere, or
the greatest index at which the needle occurs. -/
theorem rfind2_cases (a b : Char) (l : Str) :
    (rfind2 a b l = -1 ∧ ∀ i, ¬ pairAt a b l i)
    ∨ ∃ i : Nat, rfind2 a b l = (i : Int) ∧ pairAt a b l i ∧ ∀ j, pairAt a b l j → j ≤ i := by
  induction l with
  | nil =>
    left
    refine ⟨rfl, fun i hi => ?_⟩
    simp [pairAt] at hi
  | cons c cs ih =>
    rcases ih with ⟨hneg, hnone⟩ | ⟨i, hi, hpair, hmax⟩
    · by_cases hc : c = a ∧ cs.head? = some b
      · right
        refine ⟨0, ?_, pairAt_cons_zero.mpr hc, fun j hj => ?_⟩
        · simp only [rfind2, hneg]
          rw [if_neg (by norm_num), if_pos hc]
          rfl
        · cases j with
          | zero => exact le_refl 0
          | succ j => exact absurd (pairAt_cons_succ.mp hj) (hnone j)
      · left
        refine ⟨?_, fun i hi => ?_⟩
        · simp only [rfind2, hneg]
          rw [if_neg (by norm_num), if_neg hc]
        · cases i with
          | zero => exact hc (pairAt_cons_zero.mp hi)
          | succ i => exact hnone i (pairAt_cons_succ.mp hi)
    · right
      refine ⟨i + 1, ?_, pairAt_cons_succ.mpr hpair, fun j hj => ?_⟩
      · simp only [rfind2, hi]
        rw [if_pos (by omega)]
        push_cast
        ring
      · cases j with
        | zero => exact Nat.zero_le _
        | succ j => exact Nat.succ_le_succ (hmax j (pairAt_cons_succ.mp hj))

/-- Combining two rfind-style results through `max`. -/
theorem maxCases {P Q : Nat → Prop} {x y : Int}
    (hx : (x = -1 ∧ ∀ i, ¬ P i) ∨ ∃ i : Nat, x = (i : Int) ∧ P i ∧ ∀ j, P j → j ≤ i)
    (hy : (y = -1 ∧ ∀ i, ¬ Q i) ∨ ∃ i : Nat, y = (i : Int) ∧ Q i ∧ ∀ j, Q j → j ≤ i) :
    (max x y = -1 ∧ ∀ i, ¬ (P i ∨ Q i))
    ∨ ∃ i : Nat, max x y = (i : Int) ∧ (P i ∨ Q i) ∧ ∀ j, (P j ∨ Q j) → j ≤ i := by
  rcases hx with ⟨hx1, hx2⟩ | ⟨i, hxi, hPi, hPmax⟩ <;>
    rcases hy with ⟨hy1, hy2⟩ | ⟨k, hyk, hQk, hQmax⟩
  · left
    refine ⟨by rw [hx1, hy1]; rfl, fun i hi => ?_⟩
    rcases hi with h | h
    · exact hx2 i h
    · exact hy2 i h
  · right
    refine ⟨k, ?_, Or.inr hQk, fun j hj => ?_⟩
    · rw [hx1, hyk]
      exact max_eq_right (by omega)
    · rcases hj with h | h
      · exact absurd h (hx2 j)
      · exact hQmax j h
  · right
    refine ⟨i, ?_, Or.inl hPi, fun j hj => ?_⟩
    · rw [hxi, hy1]
      exact max_eq_left (by omega)
    · rcases hj with h | h
      · exact hPmax j h
      · exact absurd h (hy2 j)
  · right
    refine ⟨max i k, ?_, ?_, fun j hj => ?_⟩
    · rw [hxi, hyk, Nat.cast_max]
    · rcases le_total i k with h | h
      · rw [max_eq_right h]
        exact Or.inr hQk
      · rw [max_eq_left h]
        exact Or.inl hPi
    · rcases hj with h | h
      · exact le_trans (hPmax j h) (le_max_left _ _)
      · exact le_trans (hQmax j h) (le_max_right _ _)

/-- `lastSentenceEnd` is `-1` exactly when no sentence-ending mark occurs,
and otherwise the greatest index of such a mark. -/
theorem lastSentenceEnd_cases (t : Str) :
    (lastSentenceEnd t = -1 ∧ ∀ i, ¬ sentEndAt t i)
    ∨ ∃ i : Nat, lastSentenceEnd t = (i : Int) ∧ sentEndAt t i ∧
        ∀ j, sentEndAt t j → j ≤ i := by
  have h1 := rfind2_cases '.' ' ' t
  have h2 := rfind2_cases '!' ' ' t
  have h3 := rfind2_cases '?' ' ' t
  exact maxCases h1 (maxCases h2 h3)

/-- A sentence-ending mark lies inside the string. -/
theorem sentEndAt_lt_length {t : Str} {j : Nat} (h : sentEndAt t j) : j < t.length := by
  rcases h with h | h | h <;>
    exact (List.get?_eq_some.mp h.1).1

/-- `str.strip()` never lengthens a string. -/
theorem pyStrip_length_le (l : Str) : (pyStrip l).length ≤ l.length := by
  unfold pyStrip
  have h1 := (List.dropWhile_sublist (l := (l.dropWhile pySpace).reverse) pySpace).length_le
  have h2 := (List.dropWhile_sublist (l := l) pySpace).length_le
  simp only [List.length_reverse] at h1 ⊢
  omega

/-- C5 (counterexample): with `max_length = 10` and cleaned text
`"abcdefg. hi jklmn"`, the last sentence end of the truncated text
`"abcdefg. h"` sits at index 7 — exactly 70% of `max_length` — so the
claim's "at or after 70%" rule would cut there giving `"abcdefg..."`, but the
code's strict comparison `7 > 10 * 0.7` is false and it appends `"..."` to the
hard cut instead. -/
theorem C5_counterexample_exact_seventy_percent :
    clean_text sampleKeepSet 10 "abcdefg. hi jklmn".toList = "abcdefg. h...".toList
    ∧ claim_clean_text sampleKeepSet 10 "abcdefg. hi jklmn".toList = "abcdefg...".toList
    ∧ (("abcdefg. h...".toList : Str) == "abcdefg...".toList) = false := by
  exact ⟨by decide, by decide, by decide⟩

/-- C5 (amended): on a cleaned text longer than `max_length ≠ 0`, the
normalizer truncates at `max_length` and finds the greatest index carrying a
sentence-ending mark (`'. '`, `'! '`, `'? '`); if that index strictly exceeds
the double-precision product `max_length * 0.7` (equivalently, scaled by
`2 ^ 53`: `i * 2 ^ 53 > fl07mulNum max_length`), it cuts just after the mark
and appends `".."` — a mark at exactly 70% does not qualify — and otherwise,
or when no mark exists, it keeps the hard cut and appends `"..."`; the result
is finally stripped. -/
theorem C5_truncation_amended :
    ∀ (slw : List Str) (m : Nat) (text : Str),
      text.isEmpty = false → m ≠ 0 → m < (cleanCore slw text).length →
      (∀ i : Nat,
          sentEndAt ((cleanCore slw text).take m) i →
          (∀ j, j < ((cleanCore slw text).take m).length →
              sentEndAt ((cleanCore slw text).take m) j → j ≤ i) →
          clean_text slw m text =
            if (fl07mulNum m : Int) < (i : Int) * 2 ^ 53 then
              pyStrip (((cleanCore slw text).take m).take (i + 1) ++ ['.', '.'])
            else pyStrip ((cleanCore slw text).take m ++ ['.', '.', '.']))
      ∧ ((∀ j, j < ((cleanCore slw text).take m).length →
            ¬ sentEndAt ((cleanCore slw text).take m) j) →
          clean_text slw m text =
            pyStrip ((cleanCore slw text).take m ++ ['.', '.', '.'])) := by
  intro slw m text h1 h2 h3
  have hct : clean_text slw m text = pyStrip (truncateClean m (cleanCore slw text)) := by
    rw [clean_text, if_neg (by simp [h1])]
  have htc : truncateClean m (cleanCore slw text) =
      if (fl07mulNum m : Int) <
          lastSentenceEnd ((cleanCore slw text).take m) * 2 ^ 53 then
        ((cleanCore slw text).take m).take
          ((lastSentenceEnd ((cleanCore slw text).take m)).toNat + 1) ++ ['.', '.']
      else ((cleanCore slw text).take m) ++ ['.', '.', '.'] := by
    rw [truncateClean, if_pos ⟨h2, h3⟩]
  constructor
  · intro i hsent hmaxB
    rcases lastSentenceEnd_cases ((cleanCore slw text).take m) with
      ⟨hneg, hnone⟩ | ⟨i', hlse, hsent', hmax'⟩
    · exact absurd hsent (hnone i)
    · have hii : i = i' :=
        le_antisymm (hmax' i hsent) (hmaxB i' (sentEndAt_lt_length hsent') hsent')
      subst hii
      rw [hct, htc, hlse, apply_ite pyStrip]
      simp
  · intro hnone
    rcases lastSentenceEnd_cases ((cleanCore slw text).take m) with
      ⟨hneg, -⟩ | ⟨i', -, hsent', -⟩
    · rw [hct, htc, hneg]
      rw [if_neg ?hc]
      case hc =>
        intro hlt
        have := Int.natCast_nonneg (fl07mulNum m)
        norm_num at hlt
        omega
    · exact absurd hsent' (hnone i' (sentEndAt_lt_length hsent') )

/-- C5 witness: for `"abcdefgh. jk lmn"` with `max_length = 10`, the greatest
sentence-end index of the truncated text is 8, strictly past the float
threshold `7.0`, so the theorem's first branch applies. -/
theorem C5_truncation_amended_witness :
    ("abcdefgh. jk lmn".toList.isEmpty = false)
    ∧ (10 : Nat) ≠ 0
    ∧ 10 < (cleanCore sampleKeepSet "abcdefgh. jk lmn".toList).length
    ∧ sentEndAt ((cleanCore sampleKeepSet "abcdefgh. jk lmn".toList).take 10) 8
    ∧ (∀ j, j < ((cleanCore sampleKeepSet "abcdefgh. jk lmn".toList).take 10).length →
        sentEndAt ((cleanCore sampleKeepSet "abcdefgh. jk lmn".toList).take 10) j → j ≤ 8)
    ∧ clean_text sampleKeepSet 10 "abcdefgh. jk lmn".toList =
        (if (fl07mulNum 10 : Int) < ((8 : Nat) : Int) * 2 ^ 53 then
          pyStrip (((cleanCore sampleKeepSet "abcdefgh. jk lmn".toList).take 10).take (8 + 1)
            ++ ['.', '.'])
        else pyStrip ((cleanCore sampleKeepSet "abcdefgh. jk lmn".toList).take 10
            ++ ['.', '.', '.'])) := by
  refine ⟨by decide, by decide, by decide, by decide, by decide, ?_⟩
  exact (C5_truncation_amended sampleKeepSet 10 "abcdefgh. jk lmn".toList (by decide)
    (by decide) (by decide)).1 8 (by decide) (by decide)

/-- C6: for every keep set, every input text and every positive `max_length`,
the length of `_clean_text`'s result never exceeds `max_length + 3`. -/
theorem C6_clean_text_length_bound :
    ∀ (slw : List Str) (m : Nat) (text : Str), 0 < m →
      (clean_text slw m text).length ≤ m + 3 := by
  intro slw m text hm
  rw [clean_text]
  by_cases he : text.isEmpty
  · rw [if_pos he]
    simp
  · rw [if_neg he]
    refine le_trans (pyStrip_length_le _) ?_
    rw [truncateClean]
    by_cases hcond : m ≠ 0 ∧ m < (cleanCore slw text).length
    · rw [if_pos hcond]
      have hlen : ((cleanCore slw text).take m).length = m := by
        rw [List.length_take]
        omega
      by_cases hbr : (fl07mulNum m : Int) <
          lastSentenceEnd ((cleanCore slw text).take m) * 2 ^ 53
      · rw [if_pos hbr]
        rcases lastSentenceEnd_cases ((cleanCore slw text).take m) with
          ⟨hneg, -⟩ | ⟨i, hlse, hsent, -⟩
        · rw [hneg] at hbr
          have := Int.natCast_nonneg (fl07mulNum m)
          norm_num at hbr
          omega
        · have hi2 : i + 1 < ((cleanCore slw text).take m).length := by
            rcases hsent with h | h | h <;>
              exact (List.get?_eq_some.mp h.2).1
          rw [hlse, hlen] at *
          have hmin1 : min m ((cleanCore slw text)).length = m :=
            min_eq_left (le_of_lt hcond.2)
          simp only [List.length_append, List.length_take, Int.toNat_natCast, hmin1,
            List.length_cons, List.length_nil]
          have h4 : min (i + 1) m ≤ i + 1 := Nat.min_le_left _ _
          omega
      · rw [if_neg hbr]
        have hmin1 : min m ((cleanCore slw text)).length = m :=
          min_eq_left (le_of_lt hcond.2)
        simp only [List.length_append, List.length_take, hmin1, List.length_cons,
          List.length_nil]
        omega
    · rw [if_neg hcond]
      push_neg at hcond
      have := hcond (by omega)
      omega

/-- C6 witness: the bound evaluated at `max_length = 10` on a concrete text. -/
theorem C6_clean_text_length_bound_witness :
    0 < 10 ∧ (clean_text sampleKeepSet 10 "abcdefg. hi jklmn".toList).length ≤ 10 + 3 :=
  ⟨by decide,
   C6_clean_text_length_bound sampleKeepSet 10 "abcdefg. hi jklmn".toList (by decide)⟩

/-- `isPrefixOf` agrees with prefix decomposition. -/
theorem isPrefixOf_iff_exists {u l : Str} : u.isPrefixOf l = true ↔ ∃ t, l = u ++ t := by
  rw [List.isPrefixOf_iff_prefix]
  constructor
  · rintro ⟨t, ht⟩
    exact ⟨t, ht.symm⟩
  · rintro ⟨t, ht⟩
    exact ⟨t, ht.symm⟩

/-- `occursB` agrees with substring decomposition. -/
theorem occursB_iff (u : Str) : ∀ l, occursB u l = true ↔ occursIn u l := by
  intro l
  induction l with
  | nil =>
    cases u with
    | nil =>
      constructor
      · intro _
        exact ⟨[], [], rfl⟩
      · intro _
        rfl
    | cons a as =>
      constructor
      · intro h
        exact absurd h (by simp [occursB])
      · rintro ⟨s, t, hst⟩
        exact absurd hst.symm (by simp)
  | cons c cs ih =>
    show (u.isPrefixOf (c :: cs) || occursB u cs) = true ↔ _
    rw [Bool.or_eq_true, ih]
    constructor
    · rintro (hp | ho)
      · obtain ⟨t, ht⟩ := isPrefixOf_iff_exists.mp hp
        exact ⟨[], t, by simp [ht]⟩
      · obtain ⟨s, t, hst⟩ := ho
        exact ⟨c :: s, t, by simp [hst]⟩
    · rintro ⟨s, t, hst⟩
      cases s with
      | nil =>
        left
        exact isPrefixOf_iff_exists.mpr ⟨t, by simpa using hst⟩
      | cons b bs =>
        right
        rw [List.cons_append, List.cons_append] at hst
        injection hst with h1 h2
        exact ⟨bs, t, h2⟩

/-- Substring occurrence is transitive. -/
theorem occursIn_trans {a b c : Str} (h1 : occursIn a b) (h2 : occursIn b c) :
    occursIn a c := by
  obtain ⟨s1, t1, hb⟩ := h1
  obtain ⟨s2, t2, hc⟩ := h2
  exact ⟨s2 ++ s1, t1 ++ t2, by rw [hc, hb]; simp [List.append_assoc]⟩

/-- Consuming `skip` characters first. -/
theorem replaceAllAux_skip (pat repl : Str) : ∀ (l : Str) (k : Nat),
    replaceAllAux pat repl l k = replaceAllAux pat repl (l.drop k) 0 := by
  intro l
  induction l with
  | nil =>
    intro k
    cases k <;> rfl
  | cons c cs ih =>
    intro k
    cases k with
    | zero => rfl
    | succ k =>
      show replaceAllAux pat repl cs k = _
      rw [ih k, List.drop_succ_cons]

/-- Unfolding `replaceAll` at a matching position. -/
theorem replaceAll_cons_pos {pat : Str} (repl : Str) {c : Char} {cs : Str}
    (hp : pat ≠ []) (hpre : pat.isPrefixOf (c :: cs) = true) :
    replaceAll pat repl (c :: cs) =
      repl ++ replaceAll pat repl ((c :: cs).drop pat.length) := by
  show replaceAllAux pat repl (c :: cs) 0 = _
  rw [show replaceAllAux pat repl (c :: cs) 0 =
      if pat ≠ [] ∧ pat.isPrefixOf (c :: cs) then
        repl ++ replaceAllAux pat repl cs (pat.length - 1)
      else c :: replaceAllAux pat repl cs 0 from rfl]
  rw [if_pos ⟨hp, hpre⟩, replaceAllAux_skip]
  cases pat with
  | nil => exact absurd rfl hp
  | cons p ps =>
    rw [show (p :: ps : Str).length = ps.length + 1 from rfl, List.drop_succ_cons,
      Nat.add_sub_cancel]
    rfl

/-- Unfolding `replaceAll` at a non-matching position. -/
theorem replaceAll_cons_neg {pat : Str} (repl : Str) {c : Char} {cs : Str}
    (h : ¬ (pat ≠ [] ∧ pat.isPrefixOf (c :: cs) = true)) :
    replaceAll pat repl (c :: cs) = c :: replaceAll pat repl cs := by
  show replaceAllAux pat repl (c :: cs) 0 = _
  rw [show replaceAllAux pat repl (c :: cs) 0 =
      if pat ≠ [] ∧ pat.isPrefixOf (c :: cs) then
        repl ++ replaceAllAux pat repl cs (pat.length - 1)
      else c :: replaceAllAux pat repl cs 0 from rfl]
  rw [if_neg h]
  rfl

/-- When the pattern occurs, the replacement text occurs in the result of
`replaceAll`. -/
theorem occursIn_repl (pat repl : Str) (hp : pat ≠ []) :
    ∀ l, occursIn pat l → occursIn repl (replaceAll pat repl l) := by
  suffices main : ∀ (n : Nat) (l : Str), l.length ≤ n → occursIn pat l →
      occursIn repl (replaceAll pat repl l) by
    intro l h
    exact main l.length l le_rfl h
  intro n
  induction n with
  | zero =>
    intro l hl hocc
    have hnil : l = [] := List.length_eq_zero.mp (Nat.le_zero.mp hl)
    subst hnil
    obtain ⟨s, t, hst⟩ := hocc
    obtain ⟨h1, -⟩ := List.append_eq_nil.mp hst.symm
    exact absurd (List.append_eq_nil.mp h1).2 hp
  | succ n ih =>
    intro l hl hocc
    cases l with
    | nil =>
      obtain ⟨s, t, hst⟩ := hocc
      obtain ⟨h1, -⟩ := List.append_eq_nil.mp hst.symm
      exact absurd (List.append_eq_nil.mp h1).2 hp
    | cons c cs =>
      by_cases hpre : pat.isPrefixOf (c :: cs) = true
      · rw [replaceAll_cons_pos repl hp hpre]
        exact ⟨[], replaceAll pat repl ((c :: cs).drop pat.length), by simp⟩
      · rw [replaceAll_cons_neg repl (fun hand => hpre hand.2)]
        obtain ⟨s, t, hst⟩ := hocc
        cases s with
        | nil =>
          exfalso
          apply hpre
          rw [List.nil_append] at hst
          exact isPrefixOf_iff_exists.mpr ⟨t, hst⟩
        | cons b bs =>
          rw [List.cons_append] at hst
          injection hst with h1 h2
          have hlen : cs.length ≤ n := by
            simp only [List.length_cons] at hl
            omega
          obtain ⟨u, v, huv⟩ := ih cs hlen ⟨bs, t, h2⟩
          exact ⟨c :: u, v, by rw [huv]; simp [List.append_assoc]⟩

/-- `replaceAll` with the query pattern walks through text free of `'{'`
unchanged. -/
theorem replaceAll_peel_query (q : Str) : ∀ (w rest : Str),
    (∀ ch ∈ w, ch ≠ '\x7b') →
    replaceAll queryMarker q (w ++ rest) = w ++ replaceAll queryMarker q rest := by
  intro w
  induction w with
  | nil =>
    intro rest _
    simp
  | cons ch ws ih =>
    intro rest h
    have hch : ch ≠ '\x7b' := h ch (List.mem_cons_self _ _)
    rw [List.cons_append, replaceAll_cons_neg q ?hc,
      ih rest (fun c hc => h c (List.mem_cons_of_mem _ hc))]
    rfl
    case hc =>
      rintro ⟨-, hpre⟩
      obtain ⟨t, ht⟩ := isPrefixOf_iff_exists.mp hpre
      rw [show queryMarker = '\x7b' :: ['q', 'u', 'e', 'r', 'y', '\x7d'] from rfl,
        List.cons_append] at ht
      injection ht with h1 h2
      exact hch h1

/-- An occurrence of `"{sources}"` survives the substitution of `"{query}"`:
the two markers cannot overlap, so replacing one never destroys the other. -/
theorem occursIn_sources_preserved (q : Str) :
    ∀ l, occursIn sourcesMarker l →
      occursIn sourcesMarker (replaceAll queryMarker q l) := by
  suffices main : ∀ (n : Nat) (l : Str), l.length ≤ n → occursIn sourcesMarker l →
      occursIn sourcesMarker (replaceAll queryMarker q l) by
    intro l h
    exact main l.length l le_rfl h
  intro n
  induction n with
  | zero =>
    intro l hl hocc
    have hnil : l = [] := List.length_eq_zero.mp (Nat.le_zero.mp hl)
    subst hnil
    obtain ⟨s, t, hst⟩ := hocc
    obtain ⟨h1, -⟩ := List.append_eq_nil.mp hst.symm
    exact absurd (List.append_eq_nil.mp h1).2 (by decide)
  | succ n ih =>
    intro l hl hocc
    cases l with
    | nil =>
      obtain ⟨s, t, hst⟩ := hocc
      obtain ⟨h1, -⟩ := List.append_eq_nil.mp hst.symm
      exact absurd (List.append_eq_nil.mp h1).2 (by decide)
    | cons c cs =>
      obtain ⟨u, v, hst⟩ := hocc
      by_cases hpre : queryMarker.isPrefixOf (c :: cs) = true
      · have h7 : 7 ≤ u.length := by
          by_contra hlt
          push_neg at hlt
          have hbrace : (c :: cs).get? u.length = some '\x7b' := by
            rw [hst, List.append_assoc, List.get?_append_right (le_refl u.length),
              Nat.sub_self,
              show sourcesMarker ++ v = '\x7b' ::
                (['s', 'o', 'u', 'r', 'c', 'e', 's', '\x7d'] ++ v) from rfl,
              List.get?_cons_zero]
          obtain ⟨w, hw⟩ := isPrefixOf_iff_exists.mp hpre
          have hqchar : (c :: cs).get? u.length = queryMarker.get? u.length := by
            rw [hw, List.get?_append]
            exact hlt
          rw [hqchar] at hbrace
          set k := u.length with hk
          interval_cases k
          · have hu : u = [] := List.length_eq_zero.mp hk.symm
            subst hu
            rw [List.nil_append] at hst
            have h1 : (c :: cs).get? 1 = some 's' := by
              rw [hst]
              rfl
            have h2 : (c :: cs).get? 1 = some 'q' := by
              rw [hw]
              rfl
            rw [h1] at h2
            exact absurd h2 (by decide)
          all_goals exact absurd hbrace (by decide)
        rw [replaceAll_cons_pos q (by decide) hpre,
          show queryMarker.length = 7 from rfl]
        have hdrop : occursIn sourcesMarker ((c :: cs).drop 7) := by
          refine ⟨u.drop 7, v, ?_⟩
          rw [hst, List.append_assoc, List.drop_append_of_le_length h7]
          simp [List.append_assoc]
        have hlen : ((c :: cs).drop 7).length ≤ n := by
          rw [List.length_drop]
          simp only [List.length_cons] at hl ⊢
          omega
        obtain ⟨x, y, hxy⟩ := ih ((c :: cs).drop 7) hlen hdrop
        exact ⟨q ++ x, y, by rw [hxy]; simp [List.append_assoc]⟩
      · rw [replaceAll_cons_neg q (fun hand => hpre hand.2)]
        cases u with
        | nil =>
          rw [List.nil_append,
            show sourcesMarker ++ v = '\x7b' ::
              (['s', 'o', 'u', 'r', 'c', 'e', 's', '\x7d'] ++ v) from rfl] at hst
          injection hst with h1 h2
          have hpeel := replaceAll_peel_query q ['s', 'o', 'u', 'r', 'c', 'e', 's', '\x7d']
            v (by decide)
          rw [h2, hpeel]
          refine ⟨[], replaceAll queryMarker q v, ?_⟩
          rw [h1]
          rfl
        | cons b bs =>
          rw [List.cons_append] at hst
          injection hst with h1 h2
          have hlen : cs.length ≤ n := by
            simp only [List.length_cons] at hl
            omega
          obtain ⟨x, y, hxy⟩ := ih cs hlen ⟨bs, v, h2⟩
          exact ⟨c :: x, y, by rw [hxy]; simp [List.append_assoc]⟩

/-- The startup-selected template always carries both placeholders. -/
theorem selectTemplate_markers (fc : Option Str) :
    occursB queryMarker (selectTemplate fc) = true
    ∧ occursB sourcesMarker (selectTemplate fc) = true := by
  match fc with
  | none => exact ⟨by decide, by decide⟩
  | some t =>
    have hsel : selectTemplate (some t) =
        if (pyStrip t).length = 0 then defaultTemplate
        else if occursB queryMarker t = false then defaultTemplate
        else if occursB sourcesMarker t = false then defaultTemplate
        else t := rfl
    rw [hsel]
    by_cases h1 : (pyStrip t).length = 0
    · rw [if_pos h1]
      exact ⟨by decide, by decide⟩
    · rw [if_neg h1]
      by_cases h2 : occursB queryMarker t = false
      · rw [if_pos h2]
        exact ⟨by decide, by decide⟩
      · rw [if_neg h2]
        by_cases h3 : occursB sourcesMarker t = false
        · rw [if_pos h3]
          exact ⟨by decide, by decide⟩
        · rw [if_neg h3]
          simp only [Bool.not_eq_false] at h2 h3
          exact ⟨h2, h3⟩

/-- C8 (counterexample): `generate_prompt_from_template` itself performs no
fallback — with the explicitly supplied malformed (empty) template the built
prompt is empty, embedding neither the query `"hello"` nor the sources
`"world"`, and differing from the prompt the built-in default template would
produce. -/
theorem C8_counterexample_no_function_fallback :
    generate_prompt "hello".toList "world".toList [] = []
    ∧ occursB "hello".toList (generate_prompt "hello".toList "world".toList []) = false
    ∧ occursB "world".toList (generate_prompt "hello".toList "world".toList []) = false
    ∧ (generate_prompt "hello".toList "world".toList defaultTemplate == ([] : Str)) = false := by
  exact ⟨rfl, by decide, by decide, by decide⟩

/-- C8 (amended): the fail-closed validation lives in the configuration load,
not in the function: `initialize_ollama` selects the built-in default template
whenever the configured template file is unreadable, empty, or missing either
placeholder, never raising, so the selected template always contains both
placeholders; and every prompt built by `generate_prompt_from_template` from a
selected template embeds the sources text. -/
theorem C8_template_selection_fail_closed :
    (∀ fc : Option Str,
        occursB queryMarker (selectTemplate fc) = true
        ∧ occursB sourcesMarker (selectTemplate fc) = true)
    ∧ (∀ (fc : Option Str) (query sources : Str),
        occursB sources (generate_prompt query sources (selectTemplate fc)) = true) := by
  refine ⟨selectTemplate_markers, fun fc query sources => ?_⟩
  rw [occursB_iff]
  have hs : occursIn sourcesMarker (selectTemplate fc) :=
    (occursB_iff _ _).mp (selectTemplate_markers fc).2
  have h1 : occursIn sourcesMarker (replaceAll queryMarker query (selectTemplate fc)) :=
    occursIn_sources_preserved query _ hs
  exact occursIn_repl sourcesMarker sources (by decide) _ h1

/-- C10: the two placeholder substitutions are sequential — `"{query}"` first,
then `"{sources}"` on the intermediate result — so sources text reaches even a
`"{sources}"` occurrence contributed by the query, while `"{query}"`
occurrences inside the sources text are left verbatim; concretely, with
template `"Q:{query} S:{sources}"`, the query `"a{sources}b"` yields
`"Q:aXb S:X"` (unlike the single-pass simultaneous substitution, which yields
`"Q:a{sources}b S:X"`), and sources `"see {query} here"` keep their
`"{query}"` verbatim. -/
theorem C10_sequential_substitution :
    (∀ (query sources template : Str),
        occursB queryMarker template = true →
        occursB sourcesMarker query = true →
        occursB sources (generate_prompt query sources template) = true)
    ∧ (∀ (query sources template : Str),
        occursB sourcesMarker template = true →
        occursB queryMarker sources = true →
        occursB queryMarker (generate_prompt query sources template) = true)
    ∧ generate_prompt "a{sources}b".toList "X".toList demoTemplate = "Q:aXb S:X".toList
    ∧ generate_prompt "hi".toList "see {query} here".toList demoTemplate =
        "Q:hi S:see {query} here".toList
    ∧ (generate_prompt "a{sources}b".toList "X".toList demoTemplate ==
        simulSubst "a{sources}b".toList "X".toList demoTemplate) = false := by
  refine ⟨fun query sources template hq hs => ?_, fun query sources template hs hq => ?_,
    by decide, by decide, by decide⟩
  · rw [occursB_iff]
    have h1 : occursIn query (replaceAll queryMarker query template) :=
      occursIn_repl queryMarker query (by decide) _ ((occursB_iff _ _).mp hq)
    have h2 : occursIn sourcesMarker (replaceAll queryMarker query template) :=
      occursIn_trans ((occursB_iff _ _).mp hs) h1
    exact occursIn_repl sourcesMarker sources (by decide) _ h2
  · rw [occursB_iff]
    have h1 : occursIn sourcesMarker (replaceAll queryMarker query template) :=
      occursIn_sources_preserved query _ ((occursB_iff _ _).mp hs)
    have h2 : occursIn sources (generate_prompt query sources template) :=
      occursIn_repl sourcesMarker sources (by decide) _ h1
    exact occursIn_trans ((occursB_iff _ _).mp hq) h2

/-- C10 witness: both quantified parts applied to the concrete template
`"Q:{query} S:{sources}"`. -/
theorem C10_sequential_substitution_witness :
    (occursB queryMarker demoTemplate = true
      ∧ occursB sourcesMarker "a{sources}b".toList = true
      ∧ occursB "X".toList
          (generate_prompt "a{sources}b".toList "X".toList demoTemplate) = true)
    ∧ (occursB sourcesMarker demoTemplate = true
      ∧ occursB queryMarker "see {query} here".toList = true
      ∧ occursB queryMarker
          (generate_prompt "hi".toList "see {query} here".toList demoTemplate) = true) := by
  refine ⟨⟨by decide, by decide, ?_⟩, ⟨by decide, by decide, ?_⟩⟩
  · exact C10_sequential_substitution.1 "a{sources}b".toList "X".toList demoTemplate
      (by decide) (by decide)
  · exact C10_sequential_substitution.2.1 "hi".toList "see {query} here".toList demoTemplate
      (by decide) (by decide)

end Ragterm
